import Mathlib

/-! UEFI firmware detection (`pkg/virt-launcher/virtwrap/efi/efi.go`)

Shallow embedding of the firmware-environment detector of the virt-launcher.

* Go strings are Lean `String`s.  The only bytes the path functions inspect are the
  ASCII bytes of `/` and `.`, which never occur inside a multi-byte UTF-8 sequence, so
  working on characters and working on bytes agree on every valid UTF-8 string.
* The file system is a snapshot: a function giving, for every path, the error that
  `os.Stat` returns for it (`none` is Go's `err == nil`).  "The file exists" means that
  the stat call on its path succeeds.
* `filepath.Join` and `filepath.Clean` are the Unix versions of the Go standard library
  (the separator is `/`, there is no volume name); the write buffer of `Clean` is a list
  holding the bytes written so far, and the loop gets the length of the path as its
  iteration bound (every iteration of the Go loop advances the read index).
-/

namespace Efi

/-! ## The standard-library functions the detector calls -/

/-- Errors of `os.Stat`: the file is not there (`ENOENT`), a permission is missing
(`EACCES`), or the device failed (`EIO`). -/
inductive StatError where
  | notExist
  | permission
  | inputOutput
  deriving DecidableEq

/-- A snapshot of the file system, seen through `os.Stat`: the error of the call for each
path, `none` when the call succeeds. -/
abbrev FileSystem := String → Option StatError

/-- Function `os.IsPathSeparator` on Unix. -/
def isPathSeparator (c : Char) : Bool := c == '/'

/-- The inner loop of the `..` case of `filepath.Clean`: starting from the write index `w`
(already decremented once), step back while `w > dotdot` and `buf[w]` is not a separator. -/
def backtrack (buf : List Char) (dotdot : Nat) : Nat → Nat
  | 0 => 0
  | w + 1 =>
    if decide (dotdot < w + 1) && !isPathSeparator (buf.getD (w + 1) '/') then
      backtrack buf dotdot w
    else
      w + 1

/-- The main loop `for r < n` of `filepath.Clean`.  The second argument bounds the number
of iterations, the third is the unread part `path[r:]`, the fourth the buffer `out[:w]`,
the fifth the index `dotdot`. -/
def cleanLoop (rooted : Bool) : Nat → List Char → List Char → Nat → List Char
  | 0, _, out, _ => out
  | _ + 1, [], out, _ => out
  | fuel + 1, c :: rest, out, dotdot =>
    if isPathSeparator c then
      -- empty path element
      cleanLoop rooted fuel rest out dotdot
    else if c == '.' && (rest.isEmpty || isPathSeparator (rest.headD '/')) then
      -- . element
      cleanLoop rooted fuel rest out dotdot
    else if c == '.' && rest.headD '/' == '.' &&
        (rest.tail.isEmpty || isPathSeparator (rest.tail.headD '/')) then
      -- .. element: remove to last separator
      if dotdot < out.length then
        cleanLoop rooted fuel rest.tail
          (out.take (backtrack out dotdot (out.length - 1))) dotdot
      else if !rooted then
        let out1 := (if 0 < out.length then out ++ ['/'] else out) ++ ['.', '.']
        cleanLoop rooted fuel rest.tail out1 out1.length
      else
        cleanLoop rooted fuel rest.tail out dotdot
    else
      -- real path element: add slash if needed, copy element
      let out1 :=
        if (rooted && out.length != 1) || (!rooted && out.length != 0) then out ++ ['/']
        else out
      cleanLoop rooted fuel
        ((c :: rest).dropWhile (fun x => !isPathSeparator x))
        (out1 ++ (c :: rest).takeWhile (fun x => !isPathSeparator x)) dotdot

/-- Function `filepath.Clean` (Unix). -/
def Clean (path : String) : String :=
  if path.data.isEmpty then
    "."
  else
    let rooted := isPathSeparator (path.data.headD '.')
    let out :=
      if rooted then cleanLoop rooted path.data.length path.data.tail ['/'] 1
      else cleanLoop rooted path.data.length path.data [] 0
    -- Turn empty string into "."
    String.mk (if out.isEmpty then ['.'] else out)

/-- Function `strings.Join`. -/
def stringsJoin (sep : String) : List String → String
  | [] => ""
  | [e] => e
  | e :: f :: rest => e ++ sep ++ stringsJoin sep (f :: rest)

/-- Function `filepath.Join` (Unix): the elements from the first non-empty one on are
joined with the separator and cleaned; the result is empty when all are empty. -/
def Join : List String → String
  | [] => ""
  | e :: rest => if e != "" then Clean (stringsJoin "/" (e :: rest)) else Join rest

/-! ## The detector -/

def EFICode : String := "OVMF_CODE.fd"
def EFIVars : String := "OVMF_VARS.fd"
def EFICodeAARCH64 : String := "AAVMF_CODE.fd"
def EFIVarsAARCH64 : String := "AAVMF_VARS.fd"
def EFICodeSecureBoot : String := "OVMF_CODE.secboot.fd"
def EFIVarsSecureBoot : String := "OVMF_VARS.secboot.fd"
def EFICodeSEV : String := "OVMF_CODE.cc.fd"
def EFIVarsSEV : String := EFIVars
def EFICodeAARCH64CCA : String := "AAVMF_CODE.cca.fd"
def EFIVarsAARCH64CCA : String := "AAVMF_VARS.cca.fd"

/-- The struct `EFIEnvironment`; a field left out of a composite literal is the empty
string. -/
structure EFIEnvironment where
  code : String := ""
  vars : String := ""
  codeSecureBoot : String := ""
  varsSecureBoot : String := ""
  codeSEV : String := ""
  varsSEV : String := ""
  codeCCA : String := ""
  varsCCA : String := ""
  deriving DecidableEq

/-- Method `Bootable`. -/
def EFIEnvironment.Bootable (e : EFIEnvironment) (secureBoot sev cca : Bool) : Bool :=
  if secureBoot then
    e.varsSecureBoot != "" && e.codeSecureBoot != ""
  else if sev then
    e.varsSEV != "" && e.codeSEV != ""
  else if cca then
    e.varsCCA != "" && e.codeCCA != ""
  else
    e.vars != "" && e.code != ""

/-- Method `EFICode`. -/
def EFIEnvironment.EFICode (e : EFIEnvironment) (secureBoot sev cca : Bool) : String :=
  if secureBoot then
    e.codeSecureBoot
  else if sev then
    e.codeSEV
  else if cca then
    e.codeCCA
  else
    e.code

/-- Method `EFIVars`. -/
def EFIEnvironment.EFIVars (e : EFIEnvironment) (secureBoot sev cca : Bool) : String :=
  if secureBoot then
    e.varsSecureBoot
  else if sev then
    e.varsSEV
  else if cca then
    e.varsCCA
  else
    e.vars

/-- Function `getEFIBinaryIfExists`: the joined path when the stat call on it returns no
error, the empty string on any error. -/
def getEFIBinaryIfExists (fs : FileSystem) (path binary : String) : String :=
  let fullPath := Join [path, binary]
  match fs fullPath with
  | none => fullPath
  | some _ => ""

/-- Function `DetectEFIEnvironment`, run against the file-system snapshot `fs`. -/
def DetectEFIEnvironment (fs : FileSystem) (arch ovmfPath : String) : EFIEnvironment :=
  if arch == "arm64" then
    let codeArm64 := getEFIBinaryIfExists fs ovmfPath EFICodeAARCH64
    let varsArm64 := getEFIBinaryIfExists fs ovmfPath EFIVarsAARCH64
    let codeArm64WithCCA := getEFIBinaryIfExists fs ovmfPath EFICodeAARCH64CCA
    let varsArm64WithCCA := getEFIBinaryIfExists fs ovmfPath EFIVarsAARCH64CCA
    { code := codeArm64
      vars := varsArm64
      codeCCA := codeArm64WithCCA
      varsCCA := varsArm64WithCCA }
  else
    -- detect EFI with SecureBoot
    let codeWithSB := getEFIBinaryIfExists fs ovmfPath EFICodeSecureBoot
    let varsWithSB := getEFIBinaryIfExists fs ovmfPath EFIVarsSecureBoot
    -- detect EFI without SecureBoot
    let code := getEFIBinaryIfExists fs ovmfPath EFICode
    let vars := getEFIBinaryIfExists fs ovmfPath EFIVars
    let code := if code == "" then codeWithSB else code
    -- detect EFI with SEV
    let codeWithSEV := getEFIBinaryIfExists fs ovmfPath EFICodeSEV
    let varsWithSEV := getEFIBinaryIfExists fs ovmfPath EFIVarsSEV
    { codeSecureBoot := codeWithSB
      varsSecureBoot := varsWithSB
      code := code
      vars := vars
      codeSEV := codeWithSEV
      varsSEV := varsWithSEV }

/-- The file `name` exists in the directory `dir`: the stat call on the joined path
succeeds. -/
def existsIn (fs : FileSystem) (dir name : String) : Prop :=
  fs (Join [dir, name]) = none

instance (fs : FileSystem) (dir name : String) : Decidable (existsIn fs dir name) := by
  unfold existsIn; infer_instance

/-- A snapshot in which the stat call succeeds exactly on the listed paths and reports
every other path as missing. -/
def fsOf (present : List String) : FileSystem :=
  fun p => if p ∈ present then none else some StatError.notExist

/-- A firmware directory with the plain pair, the Secure-Boot pair and the SEV code. -/
def fsFull : FileSystem :=
  fsOf ["/usr/share/OVMF/OVMF_CODE.fd", "/usr/share/OVMF/OVMF_VARS.fd",
        "/usr/share/OVMF/OVMF_CODE.secboot.fd", "/usr/share/OVMF/OVMF_VARS.secboot.fd",
        "/usr/share/OVMF/OVMF_CODE.cc.fd"]

/-- A firmware directory that holds only `OVMF_CODE.secboot.fd` and `OVMF_VARS.fd`. -/
def fsSecbootCodeOnly : FileSystem :=
  fsOf ["/usr/share/OVMF/OVMF_CODE.secboot.fd", "/usr/share/OVMF/OVMF_VARS.fd"]

/-- A firmware directory that holds only the SEV pair. -/
def fsSevOnly : FileSystem :=
  fsOf ["/usr/share/OVMF/OVMF_CODE.cc.fd", "/usr/share/OVMF/OVMF_VARS.fd"]

/-- An ARM64 firmware directory with the plain pair and the CCA pair. -/
def fsArm : FileSystem :=
  fsOf ["/usr/share/AAVMF/AAVMF_CODE.fd", "/usr/share/AAVMF/AAVMF_VARS.fd",
        "/usr/share/AAVMF/AAVMF_CODE.cca.fd", "/usr/share/AAVMF/AAVMF_VARS.cca.fd"]

/-- The snapshot `fsArm` plus every `OVMF_*` file in the same directory. -/
def fsArmAndOvmf : FileSystem :=
  fsOf ["/usr/share/AAVMF/AAVMF_CODE.fd", "/usr/share/AAVMF/AAVMF_VARS.fd",
        "/usr/share/AAVMF/AAVMF_CODE.cca.fd", "/usr/share/AAVMF/AAVMF_VARS.cca.fd",
        "/usr/share/AAVMF/OVMF_CODE.fd", "/usr/share/AAVMF/OVMF_VARS.fd",
        "/usr/share/AAVMF/OVMF_CODE.secboot.fd", "/usr/share/AAVMF/OVMF_VARS.secboot.fd",
        "/usr/share/AAVMF/OVMF_CODE.cc.fd"]

/-- A snapshot in which nothing exists. -/
def fsEmpty : FileSystem := fun _ => some StatError.notExist

/-- The snapshot `fsFull` with a directory that cannot be searched when `OVMF_CODE.fd` is
looked up: the stat call on that one path fails with a permission error. -/
def fsDenied : FileSystem :=
  fun p => if p = "/usr/share/OVMF/OVMF_CODE.fd" then some StatError.permission else fsFull p

/-- The snapshot `fsFull` plus every `AAVMF_*` file in the same directory. -/
def fsFullAndAavmf : FileSystem :=
  fsOf ["/usr/share/OVMF/OVMF_CODE.fd", "/usr/share/OVMF/OVMF_VARS.fd",
        "/usr/share/OVMF/OVMF_CODE.secboot.fd", "/usr/share/OVMF/OVMF_VARS.secboot.fd",
        "/usr/share/OVMF/OVMF_CODE.cc.fd",
        "/usr/share/OVMF/AAVMF_CODE.fd", "/usr/share/OVMF/AAVMF_VARS.fd",
        "/usr/share/OVMF/AAVMF_CODE.cca.fd", "/usr/share/OVMF/AAVMF_VARS.cca.fd"]

/-- The files of `fsSecbootCodeOnly`, with an input/output error instead of "not found" on
every other path. -/
def fsSecbootCodeOnlyFailing : FileSystem :=
  fun p =>
    if p ∈ ["/usr/share/OVMF/OVMF_CODE.secboot.fd", "/usr/share/OVMF/OVMF_VARS.fd"] then none
    else some StatError.inputOutput

/-- The plain pair in the directory `fw` below the working directory. -/
def fsRelative : FileSystem :=
  fsOf ["fw/OVMF_CODE.fd", "fw/OVMF_VARS.fd"]

/-- A firmware directory that holds only the plain pair. -/
def fsPlainOnly : FileSystem :=
  fsOf ["/usr/share/OVMF/OVMF_CODE.fd", "/usr/share/OVMF/OVMF_VARS.fd"]

/-- Function `filepath.IsAbs` on Unix: the path starts with a slash. -/
def IsAbs (path : String) : Bool :=
  match path.data with
  | c :: _ => c == '/'
  | [] => false

/-- A file name that is one real path element: not empty, without a separator, and
neither `.` nor `..`. -/
def isPlainName (name : List Char) : Bool :=
  !name.isEmpty && name.all (fun x => !isPathSeparator x) && name != ['.'] &&
    name != ['.', '.']

/-- A path a query may return for the directory `dir`: the empty string, or the joined
path of one of the nine firmware file names on which the stat call succeeds. -/
def soundPath (fs : FileSystem) (dir p : String) : Prop :=
  p = "" ∨
    ∃ name ∈ ["OVMF_CODE.fd", "OVMF_VARS.fd", "AAVMF_CODE.fd", "AAVMF_VARS.fd",
        "OVMF_CODE.secboot.fd", "OVMF_VARS.secboot.fd", "OVMF_CODE.cc.fd",
        "AAVMF_CODE.cca.fd", "AAVMF_VARS.cca.fd"],
      p = Join [dir, name] ∧ fs p = none

/-! ## The path functions -/

/-- The iteration bound of `cleanLoop` is never the reason it stops: any bound that is at
least the length of the unread part gives the same buffer. -/
theorem cleanLoop_fuel_irrelevant (rooted : Bool) :
    ∀ (fuel1 fuel2 : Nat) (p out : List Char) (dotdot : Nat),
      p.length ≤ fuel1 → p.length ≤ fuel2 →
      cleanLoop rooted fuel1 p out dotdot = cleanLoop rooted fuel2 p out dotdot := by
  intro fuel1
  induction fuel1 with
  | zero =>
    intro fuel2 p out dotdot h1 _
    have hp : p = [] := List.length_eq_zero.mp (Nat.le_zero.mp h1)
    subst hp
    cases fuel2 <;> simp [cleanLoop]
  | succ n ih =>
    intro fuel2 p out dotdot h1 h2
    cases p with
    | nil => cases fuel2 <;> simp [cleanLoop]
    | cons c rest =>
      cases fuel2 with
      | zero => simp at h2
      | succ m =>
        have hr1 : rest.length ≤ n := by simpa using h1
        have hr2 : rest.length ≤ m := by simpa using h2
        have ht : rest.tail.length ≤ rest.length := by simp
        by_cases hc : isPathSeparator c = true
        · simp only [cleanLoop, hc, ↓reduceIte]
          exact ih m rest out dotdot hr1 hr2
        · have hc2 : isPathSeparator c = false := by simpa using hc
          have hd : ((c :: rest).dropWhile (fun x => !isPathSeparator x)).length
              ≤ rest.length := by
            simp only [List.dropWhile, hc2, Bool.not_false]
            exact (List.dropWhile_sublist _).length_le
          simp only [cleanLoop, hc2, Bool.false_eq_true, ↓reduceIte]
          split
          · exact ih m rest out dotdot hr1 hr2
          · split
            · split
              · exact ih m _ _ _ (by omega) (by omega)
              · split
                · exact ih m _ _ _ (by omega) (by omega)
                · exact ih m _ _ _ (by omega) (by omega)
            · exact ih m _ _ _ (by omega) (by omega)

/-- Function `Clean` never returns the empty string. -/
theorem Clean_ne_empty (path : String) : Clean path ≠ "" := by
  unfold Clean
  split
  · decide
  · intro h
    have hd := congrArg String.data h
    dsimp only at hd
    split_ifs at hd <;> simp_all

/-- Joining a directory with a non-empty file name never gives the empty string. -/
theorem Join_pair_ne_empty (dir name : String) (h : name ≠ "") : Join [dir, name] ≠ "" := by
  simp only [Join]
  split
  · exact Clean_ne_empty _
  · simp only [bne_iff_ne, ne_eq, h, not_false_eq_true, ↓reduceIte]
    exact Clean_ne_empty _

/-- Function `Join` on sample directories: absolute, with a trailing slash, empty, and
relative with `.` and `..` elements. -/
theorem Join_samples :
    Join ["/usr/share/OVMF", "OVMF_CODE.fd"] = "/usr/share/OVMF/OVMF_CODE.fd" ∧
    Join ["/usr/share/OVMF/", "OVMF_CODE.fd"] = "/usr/share/OVMF/OVMF_CODE.fd" ∧
    Join ["", "OVMF_CODE.fd"] = "OVMF_CODE.fd" ∧
    Join ["fw/../../x/./y//", "OVMF_CODE.fd"] = "../x/y/OVMF_CODE.fd" ∧
    Join ["/a/../../b", "../x"] = "/x" ∧
    Join ["", ""] = "" := by
  decide

/-- Function `Clean` on sample paths. -/
theorem Clean_samples :
    Clean "" = "." ∧ Clean "abc/def/../.." = "." ∧ Clean "abc/def/../../.." = ".." ∧
    Clean "abc//./../def" = "def" ∧ Clean "../../abc/../x" = "../../x" ∧
    Clean "/../abc/" = "/abc" ∧ Clean "//" = "/" := by
  decide

/-- Backtracking in a rooted buffer never goes below the leading slash. -/
theorem backtrack_pos (buf : List Char) : ∀ w : Nat, 1 ≤ w → 1 ≤ backtrack buf 1 w := by
  intro w
  induction w with
  | zero => intro h; omega
  | succ n ih =>
    intro _
    unfold backtrack
    split
    · rename_i hc
      simp only [Bool.and_eq_true, decide_eq_true_eq] at hc
      exact ih (by omega)
    · omega

/-- On a rooted path the loop of `Clean` keeps the leading slash of the buffer. -/
theorem cleanLoop_rooted_head :
    ∀ (fuel : Nat) (p out : List Char), (∃ t, out = '/' :: t) →
      ∃ t, cleanLoop true fuel p out 1 = '/' :: t := by
  intro fuel
  induction fuel with
  | zero =>
    intro p out h
    simpa [cleanLoop] using h
  | succ n ih =>
    intro p out h
    cases p with
    | nil => simpa [cleanLoop] using h
    | cons c rest =>
      obtain ⟨t, rfl⟩ := h
      simp only [cleanLoop]
      split
      · exact ih _ _ ⟨t, rfl⟩
      · split
        · exact ih _ _ ⟨t, rfl⟩
        · split
          · split
            · rename_i hlen
              have hk := backtrack_pos ('/' :: t) (('/' :: t).length - 1)
                (by simp only [List.length_cons] at hlen ⊢; omega)
              obtain ⟨k, hk2⟩ : ∃ k, backtrack ('/' :: t) 1 (('/' :: t).length - 1) = k + 1 :=
                ⟨backtrack ('/' :: t) 1 (('/' :: t).length - 1) - 1, by omega⟩
              rw [hk2, List.take_succ_cons]
              exact ih _ _ ⟨_, rfl⟩
            · simp only [Bool.not_true, Bool.false_eq_true, ↓reduceIte]
              exact ih _ _ ⟨t, rfl⟩
          · split
            · exact ih _ _ ⟨_, List.cons_append _ _ _⟩
            · exact ih _ _ ⟨_, List.cons_append _ _ _⟩

/-- Function `Clean` maps a path that starts with a slash to one that starts with a
slash. -/
theorem Clean_IsAbs (path : String) (h : IsAbs path = true) : IsAbs (Clean path) = true := by
  unfold IsAbs at h
  cases hd : path.data with
  | nil => simp [hd] at h
  | cons c rest =>
    simp only [hd] at h
    have hc : c = '/' := by simpa using h
    subst hc
    obtain ⟨t, ht⟩ := cleanLoop_rooted_head (rest.length + 1) rest ['/'] ⟨[], rfl⟩
    simp [Clean, hd, isPathSeparator, ht, IsAbs]

/-- Joining an absolute directory with a file name gives an absolute path. -/
theorem Join_pair_IsAbs (dir name : String) (h : IsAbs dir = true) :
    IsAbs (Join [dir, name]) = true := by
  have hne : dir ≠ "" := by
    intro he
    subst he
    simp [IsAbs] at h
  simp only [Join, bne_iff_ne, ne_eq, hne, not_false_eq_true, ↓reduceIte]
  apply Clean_IsAbs
  unfold IsAbs at h ⊢
  cases hd : dir.data with
  | nil => simp [hd] at h
  | cons c rest =>
    simp only [hd] at h
    simp [stringsJoin, hd, h]

/-- Copying an element stops at the first separator. -/
theorem takeWhile_append_sep (l name : List Char) :
    (l ++ '/' :: name).takeWhile (fun x => !isPathSeparator x) =
      l.takeWhile (fun x => !isPathSeparator x) := by
  induction l with
  | nil => simp [List.takeWhile, isPathSeparator]
  | cons a l ih =>
    by_cases ha : isPathSeparator a = true
    · simp [List.takeWhile, ha]
    · simp [List.takeWhile, ha, ih]

/-- What is left after copying an element starts at the first separator. -/
theorem dropWhile_append_sep (l name : List Char) :
    (l ++ '/' :: name).dropWhile (fun x => !isPathSeparator x) =
      l.dropWhile (fun x => !isPathSeparator x) ++ '/' :: name := by
  induction l with
  | nil => simp [List.dropWhile, isPathSeparator]
  | cons a l ih =>
    by_cases ha : isPathSeparator a = true
    · simp [List.dropWhile, ha]
    · simp [List.dropWhile, ha, ih]

/-- The first byte of `l`, a slash and a name is the first byte of `l`, or the slash. -/
theorem headD_append_sep (l name : List Char) :
    (l ++ '/' :: name).headD '/' = l.headD '/' := by
  cases l <;> rfl

/-- A list that holds a slash is not empty. -/
theorem isEmpty_append_sep (l name : List Char) : (l ++ '/' :: name).isEmpty = false := by
  cases l <;> rfl

/-- The loop of `Clean` on a plain file name: a slash is added when the buffer holds an
element already, then the name is copied. -/
theorem cleanLoop_plain (rooted : Bool) (name out : List Char) (dotdot fuel : Nat)
    (hn : isPlainName name = true) (hf : name.length ≤ fuel) :
    cleanLoop rooted fuel name out dotdot =
      (if (rooted && out.length != 1) || (!rooted && out.length != 0) then out ++ ['/']
        else out) ++ name := by
  cases name with
  | nil => simp [isPlainName] at hn
  | cons c r =>
    cases fuel with
    | zero => simp at hf
    | succ f =>
      simp only [isPlainName, Bool.and_eq_true, Bool.not_eq_true', List.all_eq_true,
        bne_iff_ne, ne_eq] at hn
      obtain ⟨⟨⟨_, hall⟩, h1⟩, h2⟩ := hn
      have hc : isPathSeparator c = false := hall c (by simp)
      have hr : ∀ x ∈ r, isPathSeparator x = false := fun x hx => hall x (by simp [hx])
      have c2 : (c == '.' && (r.isEmpty || isPathSeparator (r.headD '/'))) = false := by
        cases r with
        | nil => simpa using h1
        | cons d r2 => simp [hr d (by simp)]
      have c3 : (c == '.' && r.headD '/' == '.' &&
          (r.tail.isEmpty || isPathSeparator (r.tail.headD '/'))) = false := by
        cases r with
        | nil => simp
        | cons d r2 =>
          cases r2 with
          | nil =>
            simp only [List.headD_cons, List.tail_cons, List.isEmpty_nil, Bool.true_or,
              Bool.and_true, Bool.and_eq_false_imp, beq_iff_eq]
            intro hcd
            by_cases hd : d = '.'
            · exact absurd (by rw [hcd, hd]) h2
            · simpa using hd
          | cons e r3 => simp [hr e (by simp)]
      have ht : (c :: r).takeWhile (fun x => !isPathSeparator x) = c :: r :=
        List.takeWhile_eq_self_iff.mpr (fun x hx => by simp [hall x hx])
      have hd : (c :: r).dropWhile (fun x => !isPathSeparator x) = [] :=
        List.dropWhile_eq_nil_iff.mpr (fun x hx => by simp [hall x hx])
      simp only [cleanLoop, hc, c2, c3, Bool.false_eq_true, ↓reduceIte, ht, hd]
      cases f <;> rfl

/-- The loop of `Clean` on `p`, a slash and a plain file name: the buffer it ends with
is the file name after a prefix that the name has no part in. -/
theorem cleanLoop_dir_then_plain (rooted : Bool) :
    ∀ (k : Nat) (p out : List Char) (dotdot : Nat), p.length ≤ k →
      ∃ pre : List Char, ∀ name : List Char, isPlainName name = true →
        ∀ fuel : Nat, (p ++ '/' :: name).length ≤ fuel →
          cleanLoop rooted fuel (p ++ '/' :: name) out dotdot = pre ++ name := by
  have base : ∀ (out : List Char) (dotdot : Nat),
      ∃ pre : List Char, ∀ name : List Char, isPlainName name = true →
        ∀ fuel : Nat, (([] : List Char) ++ '/' :: name).length ≤ fuel →
          cleanLoop rooted fuel ([] ++ '/' :: name) out dotdot = pre ++ name := by
    intro out dotdot
    refine ⟨if (rooted && out.length != 1) || (!rooted && out.length != 0) then out ++ ['/']
      else out, fun name hn fuel hf => ?_⟩
    cases fuel with
    | zero => simp at hf
    | succ f =>
      have hf2 : name.length ≤ f := by simpa using hf
      simp only [List.nil_append, cleanLoop, isPathSeparator, beq_self_eq_true, ↓reduceIte]
      exact cleanLoop_plain rooted name out dotdot f hn hf2
  have hs : isPathSeparator '/' = true := rfl
  intro k
  induction k with
  | zero =>
    intro p out dotdot hp
    have hnil : p = [] := List.length_eq_zero.mp (Nat.le_zero.mp hp)
    subst hnil
    exact base out dotdot
  | succ k ih =>
    intro p out dotdot hp
    cases p with
    | nil => exact base out dotdot
    | cons c rest =>
      have hr : rest.length ≤ k := by simpa using hp
      by_cases hc : isPathSeparator c = true
      · obtain ⟨pre, hpre⟩ := ih rest out dotdot hr
        refine ⟨pre, fun name hn fuel hf => ?_⟩
        cases fuel with
        | zero => simp at hf
        | succ f =>
          rw [List.cons_append]
          simp only [cleanLoop, hc, ↓reduceIte]
          exact hpre name hn f (by simpa using hf)
      · have hc0 : isPathSeparator c = false := by simpa using hc
        by_cases h2 : (c == '.' && isPathSeparator (rest.headD '/')) = true
        · obtain ⟨pre, hpre⟩ := ih rest out dotdot hr
          refine ⟨pre, fun name hn fuel hf => ?_⟩
          cases fuel with
          | zero => simp at hf
          | succ f =>
            rw [List.cons_append]
            simp only [cleanLoop, hc0, Bool.false_eq_true, ↓reduceIte,
              isEmpty_append_sep, headD_append_sep, Bool.false_or, h2]
            exact hpre name hn f (by simpa using hf)
        · have h20 : (c == '.' && isPathSeparator (rest.headD '/')) = false := by
            simpa using h2
          cases rest with
          | nil =>
            -- the element is the last one of `p` and is neither `.` nor `..`
            obtain ⟨pre, hpre⟩ := ih []
              ((if (rooted && out.length != 1) || (!rooted && out.length != 0) then
                  out ++ ['/'] else out) ++ [c]) dotdot (by simp)
            refine ⟨pre, fun name hn fuel hf => ?_⟩
            cases fuel with
            | zero => simp at hf
            | succ f =>
              have hd : List.dropWhile (fun x => !isPathSeparator x) (c :: '/' :: name) =
                  [] ++ '/' :: name := by
                simp [List.dropWhile, hc0, hs]
              have ht : List.takeWhile (fun x => !isPathSeparator x) (c :: '/' :: name) =
                  [c] := by
                simp [List.takeWhile, hc0, hs]
              have h21 : (c == '.') = false := by
                simpa [isPathSeparator] using h20
              rw [List.cons_append, List.nil_append]
              simp only [cleanLoop, hc0,
                Bool.false_eq_true, ↓reduceIte, h21, Bool.false_and, hd, ht]
              exact hpre name hn f (by simpa using hf)
          | cons d rest2 =>
            have hr2 : rest2.length ≤ k := by
              simp only [List.length_cons] at hr
              omega
            by_cases h3 : (c == '.' && d == '.' && isPathSeparator (rest2.headD '/')) = true
            · -- a `..` element
              by_cases hlen : dotdot < out.length
              · obtain ⟨pre, hpre⟩ := ih rest2
                  (out.take (backtrack out dotdot (out.length - 1))) dotdot hr2
                refine ⟨pre, fun name hn fuel hf => ?_⟩
                cases fuel with
                | zero => simp at hf
                | succ f =>
                  simp only [List.headD_cons] at h20
                  rw [List.cons_append, List.cons_append]
                  simp only [cleanLoop, hc0, Bool.false_eq_true, ↓reduceIte,
                    List.headD_cons, List.tail_cons, List.isEmpty_cons, Bool.false_or, h20,
                    isEmpty_append_sep, headD_append_sep, h3, hlen]
                  exact hpre name hn f (by simp at hf ⊢; omega)
              · by_cases hroot : rooted = true
                · subst hroot
                  obtain ⟨pre, hpre⟩ := ih rest2 out dotdot hr2
                  refine ⟨pre, fun name hn fuel hf => ?_⟩
                  cases fuel with
                  | zero => simp at hf
                  | succ f =>
                    simp only [List.headD_cons] at h20
                    rw [List.cons_append, List.cons_append]
                    simp only [cleanLoop, hc0, Bool.false_eq_true,
                      ↓reduceIte, List.headD_cons, List.tail_cons, List.isEmpty_cons,
                      Bool.false_or, h20, isEmpty_append_sep, headD_append_sep, h3, hlen,
                      Bool.not_true]
                    exact hpre name hn f (by simp at hf ⊢; omega)
                · have hroot0 : rooted = false := by simpa using hroot
                  subst hroot0
                  obtain ⟨pre, hpre⟩ := ih rest2
                    ((if 0 < out.length then out ++ ['/'] else out) ++ ['.', '.'])
                    ((if 0 < out.length then out ++ ['/'] else out) ++ ['.', '.']).length hr2
                  refine ⟨pre, fun name hn fuel hf => ?_⟩
                  cases fuel with
                  | zero => simp at hf
                  | succ f =>
                    simp only [List.headD_cons] at h20
                    rw [List.cons_append, List.cons_append]
                    simp only [cleanLoop, hc0, Bool.false_eq_true,
                      ↓reduceIte, List.headD_cons, List.tail_cons, List.isEmpty_cons,
                      Bool.false_or, h20, isEmpty_append_sep, headD_append_sep, h3, hlen,
                      Bool.not_false]
                    exact hpre name hn f (by simp at hf ⊢; omega)
            · -- a real path element
              have h30 : (c == '.' && d == '.' && isPathSeparator (rest2.headD '/'))
                  = false := by simpa using h3
              have hdl : ((c :: d :: rest2).dropWhile (fun x => !isPathSeparator x)).length
                  ≤ (d :: rest2).length := by
                rw [List.dropWhile_cons_of_pos (by simp [hc0])]
                exact (List.dropWhile_sublist _).length_le
              obtain ⟨pre, hpre⟩ := ih
                ((c :: d :: rest2).dropWhile (fun x => !isPathSeparator x))
                ((if (rooted && out.length != 1) || (!rooted && out.length != 0) then
                    out ++ ['/'] else out) ++
                  (c :: d :: rest2).takeWhile (fun x => !isPathSeparator x))
                dotdot (by omega)
              refine ⟨pre, fun name hn fuel hf => ?_⟩
              cases fuel with
              | zero => simp at hf
              | succ f =>
                have e1 := dropWhile_append_sep (c :: d :: rest2) name
                have e2 := takeWhile_append_sep (c :: d :: rest2) name
                simp only [List.cons_append] at e1 e2
                simp only [List.headD_cons] at h20
                rw [List.cons_append, List.cons_append]
                simp only [cleanLoop, hc0, Bool.false_eq_true, ↓reduceIte,
                  List.headD_cons, List.tail_cons, List.isEmpty_cons, Bool.false_or, h20,
                  isEmpty_append_sep, headD_append_sep, h30, e1, e2]
                refine hpre name hn f ?_
                simp only [List.length_append, List.length_cons] at hf hdl ⊢
                omega

/-- Function `Clean` on a path that ends with a slash and a plain file name gives the
file name after a prefix that depends on the rest of the path only. -/
theorem Clean_dir_then_plain (d : List Char) (hd : d ≠ []) :
    ∃ pre : List Char, ∀ name : List Char, isPlainName name = true →
      Clean (String.mk (d ++ '/' :: name)) = String.mk (pre ++ name) := by
  cases d with
  | nil => exact absurd rfl hd
  | cons c rest =>
    by_cases hc : isPathSeparator c = true
    · obtain ⟨pre, hpre⟩ := cleanLoop_dir_then_plain true rest.length rest ['/'] 1 le_rfl
      refine ⟨pre, fun name hn => ?_⟩
      have hne : name ≠ [] := by
        intro h
        subst h
        simp [isPlainName] at hn
      have h1 := hpre name hn (c :: rest ++ '/' :: name).length (by simp)
      simp only [Clean, List.cons_append, List.isEmpty_cons, Bool.false_eq_true, ↓reduceIte,
        List.headD_cons, hc, List.tail_cons]
      simp only [List.cons_append] at h1
      rw [h1]
      simp [hne]
    · obtain ⟨pre, hpre⟩ :=
        cleanLoop_dir_then_plain false (c :: rest).length (c :: rest) [] 0 le_rfl
      refine ⟨pre, fun name hn => ?_⟩
      have hne : name ≠ [] := by
        intro h
        subst h
        simp [isPlainName] at hn
      have h1 := hpre name hn (c :: rest ++ '/' :: name).length le_rfl
      simp only [Clean, List.cons_append, List.isEmpty_cons, Bool.false_eq_true, ↓reduceIte,
        List.headD_cons, hc]
      simp only [List.cons_append] at h1
      rw [h1]
      simp [hne]

/-- Function `Clean` leaves a plain file name as it is. -/
theorem Clean_plain (name : List Char) (hn : isPlainName name = true) :
    Clean (String.mk name) = String.mk name := by
  have h1 := cleanLoop_plain false name [] 0 name.length hn le_rfl
  cases name with
  | nil => simp [isPlainName] at hn
  | cons c r =>
    have hc : isPathSeparator c = false := by
      simp only [isPlainName, Bool.and_eq_true, Bool.not_eq_true', List.all_eq_true] at hn
      exact hn.1.1.2 c (by simp)
    simp only [Clean, List.isEmpty_cons, Bool.false_eq_true, ↓reduceIte, List.headD_cons, hc]
    rw [h1]
    simp

/-- Joining a directory with a plain file name gives the file name after a prefix that
depends on the directory only. -/
theorem Join_plain_name (dir : String) :
    ∃ pre : List Char, ∀ name : String, isPlainName name.data = true →
      Join [dir, name] = String.mk (pre ++ name.data) := by
  by_cases hd : dir = ""
  · subst hd
    refine ⟨[], fun name hn => ?_⟩
    have hne : name ≠ "" := by
      intro h
      subst h
      simp [isPlainName] at hn
    simp only [Join, stringsJoin, bne_self_eq_false, Bool.false_eq_true, ↓reduceIte,
      bne_iff_ne, ne_eq, hne, not_false_eq_true, List.nil_append]
    exact Clean_plain name.data hn
  · have hdd : dir.data ≠ [] := by
      intro h
      apply hd
      cases dir
      simp_all
    obtain ⟨pre, hpre⟩ := Clean_dir_then_plain dir.data hdd
    refine ⟨pre, fun name hn => ?_⟩
    simp only [Join, stringsJoin, bne_iff_ne, ne_eq, hd, not_false_eq_true, ↓reduceIte]
    have := hpre name.data hn
    rw [← this]
    congr 1
    apply String.ext
    simp [String.data_append]

/-- Two different plain file names have different joined paths in every directory. -/
theorem Join_plain_name_ne (dir n1 n2 : String) (h1 : isPlainName n1.data = true)
    (h2 : isPlainName n2.data = true) (hne : n1 ≠ n2) : Join [dir, n1] ≠ Join [dir, n2] := by
  obtain ⟨pre, hpre⟩ := Join_plain_name dir
  rw [hpre n1 h1, hpre n2 h2]
  intro h
  apply hne
  have hdata : n1.data = n2.data := List.append_cancel_left (congrArg String.data h)
  cases n1
  cases n2
  simp_all

/-- What a probe returns: the joined path when the file exists, else the empty string. -/
theorem getEFIBinaryIfExists_eq (fs : FileSystem) (path binary : String) :
    getEFIBinaryIfExists fs path binary =
      if existsIn fs path binary then Join [path, binary] else "" := by
  unfold getEFIBinaryIfExists existsIn
  dsimp only
  split <;> simp_all

/-- A probe for a non-empty file name is non-empty exactly when the file exists. -/
theorem getEFIBinaryIfExists_ne_empty (fs : FileSystem) (path binary : String)
    (hb : binary ≠ "") :
    getEFIBinaryIfExists fs path binary ≠ "" ↔ existsIn fs path binary := by
  rw [getEFIBinaryIfExists_eq]
  by_cases h : existsIn fs path binary
  · simp [h, Join_pair_ne_empty path binary hb]
  · simp [h]

/-- A probe only looks at whether the stat call on the joined path succeeds. -/
theorem getEFIBinaryIfExists_congr (fs1 fs2 : FileSystem) (path binary : String)
    (h : fs1 (Join [path, binary]) = none ↔ fs2 (Join [path, binary]) = none) :
    getEFIBinaryIfExists fs1 path binary = getEFIBinaryIfExists fs2 path binary := by
  simp only [getEFIBinaryIfExists_eq, existsIn, h]

/-- Two snapshots in which the stat call succeeds on the same paths give the same
detected environment. -/
theorem DetectEFIEnvironment_congr (fs1 fs2 : FileSystem) (arch dir : String)
    (h : ∀ q, fs1 q = none ↔ fs2 q = none) :
    DetectEFIEnvironment fs1 arch dir = DetectEFIEnvironment fs2 arch dir := by
  unfold DetectEFIEnvironment
  simp only [fun b => getEFIBinaryIfExists_congr fs1 fs2 dir b (h _)]

/-- The detector on the ARM64 branch, with the file names written out. -/
theorem DetectEFIEnvironment_arm64 (fs : FileSystem) (dir : String) :
    DetectEFIEnvironment fs "arm64" dir =
      { code := getEFIBinaryIfExists fs dir "AAVMF_CODE.fd"
        vars := getEFIBinaryIfExists fs dir "AAVMF_VARS.fd"
        codeCCA := getEFIBinaryIfExists fs dir "AAVMF_CODE.cca.fd"
        varsCCA := getEFIBinaryIfExists fs dir "AAVMF_VARS.cca.fd" } := by
  simp [DetectEFIEnvironment, EFICodeAARCH64, EFIVarsAARCH64, EFICodeAARCH64CCA,
    EFIVarsAARCH64CCA]

/-- The detector on the generic branch, with the file names written out. -/
theorem DetectEFIEnvironment_generic (fs : FileSystem) (arch dir : String)
    (harch : arch ≠ "arm64") :
    DetectEFIEnvironment fs arch dir =
      { codeSecureBoot := getEFIBinaryIfExists fs dir "OVMF_CODE.secboot.fd"
        varsSecureBoot := getEFIBinaryIfExists fs dir "OVMF_VARS.secboot.fd"
        code :=
          if getEFIBinaryIfExists fs dir "OVMF_CODE.fd" = "" then
            getEFIBinaryIfExists fs dir "OVMF_CODE.secboot.fd"
          else getEFIBinaryIfExists fs dir "OVMF_CODE.fd"
        vars := getEFIBinaryIfExists fs dir "OVMF_VARS.fd"
        codeSEV := getEFIBinaryIfExists fs dir "OVMF_CODE.cc.fd"
        varsSEV := getEFIBinaryIfExists fs dir "OVMF_VARS.fd" } := by
  simp [DetectEFIEnvironment, harch, EFICode, EFIVars, EFICodeSecureBoot, EFIVarsSecureBoot,
    EFICodeSEV, EFIVarsSEV]

/-- A probe for one of the nine firmware file names returns a sound path. -/
theorem getEFIBinaryIfExists_sound (fs : FileSystem) (dir name : String)
    (hmem : name ∈ ["OVMF_CODE.fd", "OVMF_VARS.fd", "AAVMF_CODE.fd", "AAVMF_VARS.fd",
        "OVMF_CODE.secboot.fd", "OVMF_VARS.secboot.fd", "OVMF_CODE.cc.fd",
        "AAVMF_CODE.cca.fd", "AAVMF_VARS.cca.fd"]) :
    soundPath fs dir (getEFIBinaryIfExists fs dir name) := by
  rw [getEFIBinaryIfExists_eq]
  by_cases h : existsIn fs dir name
  · rw [if_pos h]
    exact Or.inr ⟨name, hmem, rfl, h⟩
  · rw [if_neg h]
    exact Or.inl rfl

/-- Every field of a detected environment is a sound path. -/
theorem DetectEFIEnvironment_fields_sound (fs : FileSystem) (arch dir : String) :
    soundPath fs dir (DetectEFIEnvironment fs arch dir).code ∧
    soundPath fs dir (DetectEFIEnvironment fs arch dir).vars ∧
    soundPath fs dir (DetectEFIEnvironment fs arch dir).codeSecureBoot ∧
    soundPath fs dir (DetectEFIEnvironment fs arch dir).varsSecureBoot ∧
    soundPath fs dir (DetectEFIEnvironment fs arch dir).codeSEV ∧
    soundPath fs dir (DetectEFIEnvironment fs arch dir).varsSEV ∧
    soundPath fs dir (DetectEFIEnvironment fs arch dir).codeCCA ∧
    soundPath fs dir (DetectEFIEnvironment fs arch dir).varsCCA := by
  have hempty : soundPath fs dir "" := Or.inl rfl
  by_cases harch : arch = "arm64"
  · subst harch
    rw [DetectEFIEnvironment_arm64]
    exact ⟨getEFIBinaryIfExists_sound fs dir _ (by simp),
      getEFIBinaryIfExists_sound fs dir _ (by simp), hempty, hempty, hempty, hempty,
      getEFIBinaryIfExists_sound fs dir _ (by simp),
      getEFIBinaryIfExists_sound fs dir _ (by simp)⟩
  · rw [DetectEFIEnvironment_generic fs arch dir harch]
    refine ⟨?_, getEFIBinaryIfExists_sound fs dir _ (by simp),
      getEFIBinaryIfExists_sound fs dir _ (by simp),
      getEFIBinaryIfExists_sound fs dir _ (by simp),
      getEFIBinaryIfExists_sound fs dir _ (by simp),
      getEFIBinaryIfExists_sound fs dir _ (by simp), hempty, hempty⟩
    dsimp only
    split
    · exact getEFIBinaryIfExists_sound fs dir _ (by simp)
    · exact getEFIBinaryIfExists_sound fs dir _ (by simp)

/-! ## The generic (non-ARM64) branch -/

/-- C1: for every architecture other than "arm64", every directory and every file-system
snapshot, `Bootable(false,false,false)` on the detected environment is true if and only if
`OVMF_CODE.fd` and `OVMF_VARS.fd` both exist in the directory, or `OVMF_CODE.secboot.fd`
and `OVMF_VARS.fd` both exist in the directory. -/
theorem C1_bootable_standard_generic (fs : FileSystem) (arch dir : String)
    (harch : arch ≠ "arm64") :
    (DetectEFIEnvironment fs arch dir).Bootable false false false = true ↔
      (existsIn fs dir "OVMF_CODE.fd" ∧ existsIn fs dir "OVMF_VARS.fd") ∨
      (existsIn fs dir "OVMF_CODE.secboot.fd" ∧ existsIn fs dir "OVMF_VARS.fd") := by
  have hc := Join_pair_ne_empty dir "OVMF_CODE.fd" (by decide)
  have hv := Join_pair_ne_empty dir "OVMF_VARS.fd" (by decide)
  have hs := Join_pair_ne_empty dir "OVMF_CODE.secboot.fd" (by decide)
  rw [DetectEFIEnvironment_generic fs arch dir harch]
  simp only [EFIEnvironment.Bootable, getEFIBinaryIfExists_eq]
  by_cases h1 : existsIn fs dir "OVMF_CODE.fd" <;>
    by_cases h2 : existsIn fs dir "OVMF_VARS.fd" <;>
    by_cases h3 : existsIn fs dir "OVMF_CODE.secboot.fd" <;>
    simp [h1, h2, h3, hc, hv, hs]

theorem C1_bootable_standard_generic_witness :
    (DetectEFIEnvironment fsSecbootCodeOnly "amd64" "/usr/share/OVMF").Bootable
        false false false = true ↔
      (existsIn fsSecbootCodeOnly "/usr/share/OVMF" "OVMF_CODE.fd" ∧
        existsIn fsSecbootCodeOnly "/usr/share/OVMF" "OVMF_VARS.fd") ∨
      (existsIn fsSecbootCodeOnly "/usr/share/OVMF" "OVMF_CODE.secboot.fd" ∧
        existsIn fsSecbootCodeOnly "/usr/share/OVMF" "OVMF_VARS.fd") :=
  C1_bootable_standard_generic fsSecbootCodeOnly "amd64" "/usr/share/OVMF" (by decide)

/-- C2: for every architecture other than "arm64", `EFICode(false,false,false)` on the
detected environment is the joined path of `OVMF_CODE.fd` when that file exists, otherwise
the joined path of `OVMF_CODE.secboot.fd` when that file exists, otherwise the empty
string. -/
theorem C2_eficode_standard_generic (fs : FileSystem) (arch dir : String)
    (harch : arch ≠ "arm64") :
    (DetectEFIEnvironment fs arch dir).EFICode false false false =
      if existsIn fs dir "OVMF_CODE.fd" then Join [dir, "OVMF_CODE.fd"]
      else if existsIn fs dir "OVMF_CODE.secboot.fd" then Join [dir, "OVMF_CODE.secboot.fd"]
      else "" := by
  have hc := Join_pair_ne_empty dir "OVMF_CODE.fd" (by decide)
  rw [DetectEFIEnvironment_generic fs arch dir harch]
  simp only [EFIEnvironment.EFICode, getEFIBinaryIfExists_eq]
  by_cases h1 : existsIn fs dir "OVMF_CODE.fd" <;>
    by_cases h3 : existsIn fs dir "OVMF_CODE.secboot.fd" <;>
    simp [h1, h3, hc]

theorem C2_eficode_standard_generic_witness :
    (DetectEFIEnvironment fsFull "x86_64" "/usr/share/OVMF").EFICode false false false =
      if existsIn fsFull "/usr/share/OVMF" "OVMF_CODE.fd" then
        Join ["/usr/share/OVMF", "OVMF_CODE.fd"]
      else if existsIn fsFull "/usr/share/OVMF" "OVMF_CODE.secboot.fd" then
        Join ["/usr/share/OVMF", "OVMF_CODE.secboot.fd"]
      else "" :=
  C2_eficode_standard_generic fsFull "x86_64" "/usr/share/OVMF" (by decide)

/-- C3: for every architecture other than "arm64" and every directory in which
`OVMF_CODE.secboot.fd` and `OVMF_VARS.fd` exist while `OVMF_CODE.fd` and
`OVMF_VARS.secboot.fd` do not, `EFICode(false,false,false)` is the joined path of
`OVMF_CODE.secboot.fd`, `Bootable(false,false,false)` is true and
`Bootable(true,false,false)` is false. -/
theorem C3_secboot_code_with_plain_vars (fs : FileSystem) (arch dir : String)
    (harch : arch ≠ "arm64")
    (hsb : existsIn fs dir "OVMF_CODE.secboot.fd") (hv : existsIn fs dir "OVMF_VARS.fd")
    (hc : ¬ existsIn fs dir "OVMF_CODE.fd")
    (hvsb : ¬ existsIn fs dir "OVMF_VARS.secboot.fd") :
    (DetectEFIEnvironment fs arch dir).EFICode false false false =
        Join [dir, "OVMF_CODE.secboot.fd"] ∧
      (DetectEFIEnvironment fs arch dir).Bootable false false false = true ∧
      (DetectEFIEnvironment fs arch dir).Bootable true false false = false := by
  have hjv := Join_pair_ne_empty dir "OVMF_VARS.fd" (by decide)
  have hjs := Join_pair_ne_empty dir "OVMF_CODE.secboot.fd" (by decide)
  rw [DetectEFIEnvironment_generic fs arch dir harch]
  simp [EFIEnvironment.EFICode, EFIEnvironment.Bootable, getEFIBinaryIfExists_eq, hsb, hv,
    hc, hvsb, hjv, hjs]

theorem C3_secboot_code_with_plain_vars_witness :
    (DetectEFIEnvironment fsSecbootCodeOnly "amd64" "/usr/share/OVMF").EFICode
        false false false = "/usr/share/OVMF/OVMF_CODE.secboot.fd" ∧
      (DetectEFIEnvironment fsSecbootCodeOnly "amd64" "/usr/share/OVMF").Bootable
        false false false = true ∧
      (DetectEFIEnvironment fsSecbootCodeOnly "amd64" "/usr/share/OVMF").Bootable
        true false false = false :=
  C3_secboot_code_with_plain_vars fsSecbootCodeOnly "amd64" "/usr/share/OVMF"
    (by decide) (by decide) (by decide) (by decide) (by decide)

/-! ## The ARM64 branch -/

/-- C4: for the architecture "arm64", every directory, every snapshot and every value of
the remaining flags, `Bootable(true, sev, cca)` and `Bootable(secureBoot, true, cca)` are
false, and `EFICode` and `EFIVars` are the empty string for the same flags; the snapshot
is arbitrary, so this holds also when every `OVMF_*` file exists. -/
theorem C4_arm64_no_secureboot_no_sev (fs : FileSystem) (dir : String)
    (secureBoot sev cca : Bool) :
    (DetectEFIEnvironment fs "arm64" dir).Bootable true sev cca = false ∧
    (DetectEFIEnvironment fs "arm64" dir).Bootable secureBoot true cca = false ∧
    (DetectEFIEnvironment fs "arm64" dir).EFICode true sev cca = "" ∧
    (DetectEFIEnvironment fs "arm64" dir).EFIVars true sev cca = "" ∧
    (DetectEFIEnvironment fs "arm64" dir).EFICode secureBoot true cca = "" ∧
    (DetectEFIEnvironment fs "arm64" dir).EFIVars secureBoot true cca = "" := by
  rw [DetectEFIEnvironment_arm64]
  cases secureBoot <;>
    simp [EFIEnvironment.Bootable, EFIEnvironment.EFICode, EFIEnvironment.EFIVars]

/-- C5: for the architecture "arm64", `Bootable(false,false,true)` on the detected
environment is true if and only if `AAVMF_CODE.cca.fd` and `AAVMF_VARS.cca.fd` both exist
in the directory; two snapshots that agree on these two files give the same value,
whatever else they hold. -/
theorem C5_arm64_cca_bootable (fs : FileSystem) (dir : String) :
    ((DetectEFIEnvironment fs "arm64" dir).Bootable false false true = true ↔
      existsIn fs dir "AAVMF_CODE.cca.fd" ∧ existsIn fs dir "AAVMF_VARS.cca.fd") ∧
    ∀ fs2 : FileSystem,
      (existsIn fs2 dir "AAVMF_CODE.cca.fd" ↔ existsIn fs dir "AAVMF_CODE.cca.fd") →
      (existsIn fs2 dir "AAVMF_VARS.cca.fd" ↔ existsIn fs dir "AAVMF_VARS.cca.fd") →
      (DetectEFIEnvironment fs2 "arm64" dir).Bootable false false true =
        (DetectEFIEnvironment fs "arm64" dir).Bootable false false true := by
  have hc := Join_pair_ne_empty dir "AAVMF_CODE.cca.fd" (by decide)
  have hv := Join_pair_ne_empty dir "AAVMF_VARS.cca.fd" (by decide)
  constructor
  · rw [DetectEFIEnvironment_arm64]
    simp only [EFIEnvironment.Bootable, getEFIBinaryIfExists_eq]
    by_cases h1 : existsIn fs dir "AAVMF_CODE.cca.fd" <;>
      by_cases h2 : existsIn fs dir "AAVMF_VARS.cca.fd" <;>
      simp [h1, h2, hc, hv]
  · intro fs2 e1 e2
    rw [DetectEFIEnvironment_arm64, DetectEFIEnvironment_arm64]
    simp only [EFIEnvironment.Bootable, getEFIBinaryIfExists_eq, e1, e2]
    simp

theorem C5_arm64_cca_bootable_witness :
    (DetectEFIEnvironment fsArmAndOvmf "arm64" "/usr/share/AAVMF").Bootable
        false false true =
      (DetectEFIEnvironment fsArm "arm64" "/usr/share/AAVMF").Bootable false false true :=
  (C5_arm64_cca_bootable fsArm "/usr/share/AAVMF").2 fsArmAndOvmf (by decide) (by decide)

/-- C6: for the architecture "arm64", `Bootable(false,false,false)` on the detected
environment is true if and only if `AAVMF_CODE.fd` and `AAVMF_VARS.fd` both exist in the
directory, and `EFICode(false,false,false)` and `EFIVars(false,false,false)` are the
joined paths of `AAVMF_CODE.fd` and `AAVMF_VARS.fd` when these exist and the empty string
otherwise: no other file is used for the code when `AAVMF_CODE.fd` is absent. -/
theorem C6_arm64_standard_pair (fs : FileSystem) (dir : String) :
    ((DetectEFIEnvironment fs "arm64" dir).Bootable false false false = true ↔
      existsIn fs dir "AAVMF_CODE.fd" ∧ existsIn fs dir "AAVMF_VARS.fd") ∧
    (DetectEFIEnvironment fs "arm64" dir).EFICode false false false =
      (if existsIn fs dir "AAVMF_CODE.fd" then Join [dir, "AAVMF_CODE.fd"] else "") ∧
    (DetectEFIEnvironment fs "arm64" dir).EFIVars false false false =
      (if existsIn fs dir "AAVMF_VARS.fd" then Join [dir, "AAVMF_VARS.fd"] else "") := by
  have hc := Join_pair_ne_empty dir "AAVMF_CODE.fd" (by decide)
  have hv := Join_pair_ne_empty dir "AAVMF_VARS.fd" (by decide)
  rw [DetectEFIEnvironment_arm64]
  simp only [EFIEnvironment.Bootable, EFIEnvironment.EFICode, EFIEnvironment.EFIVars,
    getEFIBinaryIfExists_eq]
  by_cases h1 : existsIn fs dir "AAVMF_CODE.fd" <;>
    by_cases h2 : existsIn fs dir "AAVMF_VARS.fd" <;>
    simp [h1, h2, hc, hv]

/-! ## Both branches -/

/-- C7: for every architecture and every directory, if none of the nine probed firmware
files exists (as when the directory itself does not exist), then for every flag triple
`Bootable` is false and `EFICode` and `EFIVars` are the empty string. -/
theorem C7_nothing_found (fs : FileSystem) (arch dir : String)
    (h : ∀ name ∈ ["OVMF_CODE.fd", "OVMF_VARS.fd", "AAVMF_CODE.fd", "AAVMF_VARS.fd",
        "OVMF_CODE.secboot.fd", "OVMF_VARS.secboot.fd", "OVMF_CODE.cc.fd",
        "AAVMF_CODE.cca.fd", "AAVMF_VARS.cca.fd"], ¬ existsIn fs dir name)
    (secureBoot sev cca : Bool) :
    (DetectEFIEnvironment fs arch dir).Bootable secureBoot sev cca = false ∧
    (DetectEFIEnvironment fs arch dir).EFICode secureBoot sev cca = "" ∧
    (DetectEFIEnvironment fs arch dir).EFIVars secureBoot sev cca = "" := by
  have h1 := h "OVMF_CODE.fd" (by simp)
  have h2 := h "OVMF_VARS.fd" (by simp)
  have h3 := h "AAVMF_CODE.fd" (by simp)
  have h4 := h "AAVMF_VARS.fd" (by simp)
  have h5 := h "OVMF_CODE.secboot.fd" (by simp)
  have h6 := h "OVMF_VARS.secboot.fd" (by simp)
  have h7 := h "OVMF_CODE.cc.fd" (by simp)
  have h8 := h "AAVMF_CODE.cca.fd" (by simp)
  have h9 := h "AAVMF_VARS.cca.fd" (by simp)
  by_cases harch : arch = "arm64"
  · subst harch
    rw [DetectEFIEnvironment_arm64]
    cases secureBoot <;> cases sev <;> cases cca <;>
      simp [EFIEnvironment.Bootable, EFIEnvironment.EFICode, EFIEnvironment.EFIVars,
        getEFIBinaryIfExists_eq, h3, h4, h8, h9]
  · rw [DetectEFIEnvironment_generic fs arch dir harch]
    cases secureBoot <;> cases sev <;> cases cca <;>
      simp [EFIEnvironment.Bootable, EFIEnvironment.EFICode, EFIEnvironment.EFIVars,
        getEFIBinaryIfExists_eq, h1, h2, h5, h6, h7]

theorem C7_nothing_found_witness :
    (DetectEFIEnvironment fsEmpty "arm64" "/no/such/dir").Bootable false false true = false ∧
    (DetectEFIEnvironment fsEmpty "arm64" "/no/such/dir").EFICode false false true = "" ∧
    (DetectEFIEnvironment fsEmpty "arm64" "/no/such/dir").EFIVars false false true = "" :=
  C7_nothing_found fsEmpty "arm64" "/no/such/dir" (by decide) false false true

/-! ## The queries on an arbitrary environment -/

/-- C8: the selection order is secureBoot, then sev, then cca, then the standard pair: on
every environment each of `Bootable`, `EFICode` and `EFIVars` gives on `(true, sev, cca)`
what it gives on `(true, false, false)`, and on `(false, true, cca)` what it gives on
`(false, true, false)`.  For an environment detected from a directory that holds only the
SEV pair `OVMF_CODE.cc.fd` and `OVMF_VARS.fd`, `EFICode(true,true,false)` is the empty
string and not the SEV code path. -/
theorem C8_selection_priority :
    (∀ (e : EFIEnvironment) (sev cca : Bool),
      e.Bootable true sev cca = e.Bootable true false false ∧
      e.EFICode true sev cca = e.EFICode true false false ∧
      e.EFIVars true sev cca = e.EFIVars true false false ∧
      e.Bootable false true cca = e.Bootable false true false ∧
      e.EFICode false true cca = e.EFICode false true false ∧
      e.EFIVars false true cca = e.EFIVars false true false) ∧
    (∀ (fs : FileSystem) (arch dir : String),
      existsIn fs dir "OVMF_CODE.cc.fd" → existsIn fs dir "OVMF_VARS.fd" →
      (∀ name ∈ ["OVMF_CODE.fd", "AAVMF_CODE.fd", "AAVMF_VARS.fd", "OVMF_CODE.secboot.fd",
          "OVMF_VARS.secboot.fd", "AAVMF_CODE.cca.fd", "AAVMF_VARS.cca.fd"],
        ¬ existsIn fs dir name) →
      (DetectEFIEnvironment fs arch dir).EFICode true true false = "" ∧
      (DetectEFIEnvironment fs arch dir).EFICode true true false ≠
        Join [dir, "OVMF_CODE.cc.fd"]) := by
  constructor
  · intro e sev cca
    simp [EFIEnvironment.Bootable, EFIEnvironment.EFICode, EFIEnvironment.EFIVars]
  · intro fs arch dir _ _ h
    have h5 := h "OVMF_CODE.secboot.fd" (by simp)
    have hj := Join_pair_ne_empty dir "OVMF_CODE.cc.fd" (by decide)
    have he : (DetectEFIEnvironment fs arch dir).EFICode true true false = "" := by
      by_cases harch : arch = "arm64"
      · subst harch
        rw [DetectEFIEnvironment_arm64]
        simp [EFIEnvironment.EFICode]
      · rw [DetectEFIEnvironment_generic fs arch dir harch]
        simp [EFIEnvironment.EFICode, getEFIBinaryIfExists_eq, h5]
    rw [he]
    exact ⟨rfl, fun hh => hj hh.symm⟩

theorem C8_selection_priority_witness :
    (DetectEFIEnvironment fsSevOnly "amd64" "/usr/share/OVMF").EFICode true true false = "" ∧
    (DetectEFIEnvironment fsSevOnly "amd64" "/usr/share/OVMF").EFICode true true false ≠
      "/usr/share/OVMF/OVMF_CODE.cc.fd" :=
  C8_selection_priority.2 fsSevOnly "amd64" "/usr/share/OVMF" (by decide) (by decide)
    (by decide)

/-- C9: on every environment and for every flag triple, `Bootable` is true if and only if
`EFICode` and `EFIVars` are both non-empty for the same flags; a pair with one half
missing is not bootable. -/
theorem C9_bootable_iff_both_halves (e : EFIEnvironment) (secureBoot sev cca : Bool) :
    e.Bootable secureBoot sev cca = true ↔
      e.EFICode secureBoot sev cca ≠ "" ∧ e.EFIVars secureBoot sev cca ≠ "" := by
  cases secureBoot <;> cases sev <;> cases cca <;>
    simp [EFIEnvironment.Bootable, EFIEnvironment.EFICode, EFIEnvironment.EFIVars, and_comm]

/-! ## Errors of the stat call -/

/-- C10: a probe whose stat call fails, with whatever error, returns the empty string, as
a probe of a missing file does; the detector returns the environment it returns when that
path is reported as not existing.  The detector is a total function into environments: it
has no error result. -/
theorem C10_stat_errors_are_absence :
    (∀ (fs : FileSystem) (path binary : String) (err : StatError),
      fs (Join [path, binary]) = some err → getEFIBinaryIfExists fs path binary = "") ∧
    (∀ (fs : FileSystem) (arch dir p : String) (err : StatError),
      fs p = some err →
      DetectEFIEnvironment fs arch dir =
        DetectEFIEnvironment (Function.update fs p (some StatError.notExist)) arch dir) := by
  constructor
  · intro fs path binary err h
    simp [getEFIBinaryIfExists, h]
  · intro fs arch dir p err h
    apply DetectEFIEnvironment_congr
    intro q
    by_cases hq : q = p
    · subst hq
      simp [h]
    · simp [Function.update_noteq hq]

theorem C10_stat_errors_are_absence_witness :
    getEFIBinaryIfExists fsDenied "/usr/share/OVMF" "OVMF_CODE.fd" = "" ∧
    DetectEFIEnvironment fsDenied "amd64" "/usr/share/OVMF" =
      DetectEFIEnvironment
        (Function.update fsDenied "/usr/share/OVMF/OVMF_CODE.fd" (some StatError.notExist))
        "amd64" "/usr/share/OVMF" :=
  ⟨C10_stat_errors_are_absence.1 fsDenied "/usr/share/OVMF" "OVMF_CODE.fd"
      StatError.permission (by decide),
   C10_stat_errors_are_absence.2 fsDenied "amd64" "/usr/share/OVMF"
      "/usr/share/OVMF/OVMF_CODE.fd" StatError.permission (by decide)⟩

/-! ## The shape of the returned paths -/

/-- C11, as stated, fails for a relative firmware directory: with the plain pair in the
directory `fw`, `EFICode(false,false,false)` is `fw/OVMF_CODE.fd`, which is neither empty
nor absolute. -/
theorem C11_relative_dir_counterexample :
    (DetectEFIEnvironment fsRelative "amd64" "fw").EFICode false false false =
        "fw/OVMF_CODE.fd" ∧
    ¬ ((DetectEFIEnvironment fsRelative "amd64" "fw").EFICode false false false = "" ∨
      IsAbs ((DetectEFIEnvironment fsRelative "amd64" "fw").EFICode false false false)
        = true) := by
  decide

/-- C11, amended: for every architecture, every absolute firmware directory (one that
starts with a slash), every snapshot and every flag triple, each path returned by
`EFICode` and `EFIVars` on the detected environment is the empty string or an absolute
path. -/
theorem C11_absolute_dir_absolute_paths (fs : FileSystem) (arch dir : String)
    (habs : IsAbs dir = true) (secureBoot sev cca : Bool) :
    ((DetectEFIEnvironment fs arch dir).EFICode secureBoot sev cca = "" ∨
      IsAbs ((DetectEFIEnvironment fs arch dir).EFICode secureBoot sev cca) = true) ∧
    ((DetectEFIEnvironment fs arch dir).EFIVars secureBoot sev cca = "" ∨
      IsAbs ((DetectEFIEnvironment fs arch dir).EFIVars secureBoot sev cca) = true) := by
  have key : ∀ p, soundPath fs dir p → p = "" ∨ IsAbs p = true := by
    intro p hp
    rcases hp with hp | ⟨name, _, hj, _⟩
    · exact Or.inl hp
    · exact Or.inr (hj ▸ Join_pair_IsAbs dir name habs)
  obtain ⟨f1, f2, f3, f4, f5, f6, f7, f8⟩ := DetectEFIEnvironment_fields_sound fs arch dir
  cases secureBoot <;> cases sev <;> cases cca <;>
    simp only [EFIEnvironment.EFICode, EFIEnvironment.EFIVars, Bool.false_eq_true,
      ↓reduceIte] <;>
    exact ⟨key _ (by assumption), key _ (by assumption)⟩

theorem C11_absolute_dir_absolute_paths_witness :
    ((DetectEFIEnvironment fsFull "amd64" "/usr/share/OVMF").EFICode true false false = "" ∨
      IsAbs ((DetectEFIEnvironment fsFull "amd64" "/usr/share/OVMF").EFICode
        true false false) = true) ∧
    ((DetectEFIEnvironment fsFull "amd64" "/usr/share/OVMF").EFIVars true false false = "" ∨
      IsAbs ((DetectEFIEnvironment fsFull "amd64" "/usr/share/OVMF").EFIVars
        true false false) = true) :=
  C11_absolute_dir_absolute_paths fsFull "amd64" "/usr/share/OVMF" (by decide)
    true false false

/-! ## The architecture string -/

/-- C12: only the string "arm64" selects the ARM64 branch: for two architecture strings
that both differ from "arm64", and every directory and snapshot, the detected environments
are equal, and so are the results of `Bootable`, `EFICode` and `EFIVars` for every flag
triple. -/
theorem C12_only_arm64_is_special (fs : FileSystem) (a1 a2 dir : String)
    (h1 : a1 ≠ "arm64") (h2 : a2 ≠ "arm64") :
    DetectEFIEnvironment fs a1 dir = DetectEFIEnvironment fs a2 dir ∧
    ∀ secureBoot sev cca : Bool,
      (DetectEFIEnvironment fs a1 dir).Bootable secureBoot sev cca =
        (DetectEFIEnvironment fs a2 dir).Bootable secureBoot sev cca ∧
      (DetectEFIEnvironment fs a1 dir).EFICode secureBoot sev cca =
        (DetectEFIEnvironment fs a2 dir).EFICode secureBoot sev cca ∧
      (DetectEFIEnvironment fs a1 dir).EFIVars secureBoot sev cca =
        (DetectEFIEnvironment fs a2 dir).EFIVars secureBoot sev cca := by
  have he : DetectEFIEnvironment fs a1 dir = DetectEFIEnvironment fs a2 dir := by
    rw [DetectEFIEnvironment_generic fs a1 dir h1, DetectEFIEnvironment_generic fs a2 dir h2]
  refine ⟨he, ?_⟩
  intro secureBoot sev cca
  rw [he]
  exact ⟨rfl, rfl, rfl⟩

theorem C12_only_arm64_is_special_witness :
    DetectEFIEnvironment fsFullAndAavmf "aarch64" "/usr/share/OVMF" =
      DetectEFIEnvironment fsFullAndAavmf "ARM64" "/usr/share/OVMF" ∧
    DetectEFIEnvironment fsFullAndAavmf "" "/usr/share/OVMF" =
      DetectEFIEnvironment fsFullAndAavmf "amd64" "/usr/share/OVMF" :=
  ⟨(C12_only_arm64_is_special fsFullAndAavmf "aarch64" "ARM64" "/usr/share/OVMF"
      (by decide) (by decide)).1,
   (C12_only_arm64_is_special fsFullAndAavmf "" "amd64" "/usr/share/OVMF"
      (by decide) (by decide)).1⟩

/-- C13: for every architecture other than "arm64", every directory and every snapshot
(also one in which `AAVMF_CODE.cca.fd` and `AAVMF_VARS.cca.fd` exist), the CCA pair of the
detected environment is empty: `Bootable(false,false,true)` is false and
`EFICode(false,false,true)` and `EFIVars(false,false,true)` are the empty string. -/
theorem C13_generic_cca_pair_empty (fs : FileSystem) (arch dir : String)
    (harch : arch ≠ "arm64") :
    (DetectEFIEnvironment fs arch dir).Bootable false false true = false ∧
    (DetectEFIEnvironment fs arch dir).EFICode false false true = "" ∧
    (DetectEFIEnvironment fs arch dir).EFIVars false false true = "" := by
  rw [DetectEFIEnvironment_generic fs arch dir harch]
  simp [EFIEnvironment.Bootable, EFIEnvironment.EFICode, EFIEnvironment.EFIVars]

theorem C13_generic_cca_pair_empty_witness :
    (existsIn fsFullAndAavmf "/usr/share/OVMF" "AAVMF_CODE.cca.fd" ∧
      existsIn fsFullAndAavmf "/usr/share/OVMF" "AAVMF_VARS.cca.fd") ∧
    (DetectEFIEnvironment fsFullAndAavmf "amd64" "/usr/share/OVMF").Bootable
        false false true = false ∧
    (DetectEFIEnvironment fsFullAndAavmf "amd64" "/usr/share/OVMF").EFICode
        false false true = "" ∧
    (DetectEFIEnvironment fsFullAndAavmf "amd64" "/usr/share/OVMF").EFIVars
        false false true = "" :=
  ⟨by decide, C13_generic_cca_pair_empty fsFullAndAavmf "amd64" "/usr/share/OVMF" (by decide)⟩

/-- C14: for every architecture other than "arm64", the SEV vars slot is the standard
vars file: `EFIVars(false,true,cca)` equals `EFIVars(false,false,false)`, which is the
joined path of `OVMF_VARS.fd` when that file exists and the empty string otherwise, and
`Bootable(false,true,cca)` is true if and only if `OVMF_CODE.cc.fd` and `OVMF_VARS.fd`
both exist in the directory. -/
theorem C14_sev_vars_is_standard_vars (fs : FileSystem) (arch dir : String)
    (harch : arch ≠ "arm64") (cca : Bool) :
    (DetectEFIEnvironment fs arch dir).EFIVars false true cca =
      (DetectEFIEnvironment fs arch dir).EFIVars false false false ∧
    (DetectEFIEnvironment fs arch dir).EFIVars false false false =
      (if existsIn fs dir "OVMF_VARS.fd" then Join [dir, "OVMF_VARS.fd"] else "") ∧
    ((DetectEFIEnvironment fs arch dir).Bootable false true cca = true ↔
      existsIn fs dir "OVMF_CODE.cc.fd" ∧ existsIn fs dir "OVMF_VARS.fd") := by
  have hc := Join_pair_ne_empty dir "OVMF_CODE.cc.fd" (by decide)
  have hv := Join_pair_ne_empty dir "OVMF_VARS.fd" (by decide)
  rw [DetectEFIEnvironment_generic fs arch dir harch]
  simp only [EFIEnvironment.Bootable, EFIEnvironment.EFIVars, getEFIBinaryIfExists_eq]
  by_cases h1 : existsIn fs dir "OVMF_CODE.cc.fd" <;>
    by_cases h2 : existsIn fs dir "OVMF_VARS.fd" <;>
    simp [h1, h2, hc, hv]

theorem C14_sev_vars_is_standard_vars_witness :
    (DetectEFIEnvironment fsSevOnly "amd64" "/usr/share/OVMF").EFIVars false true true =
      (DetectEFIEnvironment fsSevOnly "amd64" "/usr/share/OVMF").EFIVars false false false ∧
    (DetectEFIEnvironment fsSevOnly "amd64" "/usr/share/OVMF").EFIVars false false false =
      "/usr/share/OVMF/OVMF_VARS.fd" ∧
    ((DetectEFIEnvironment fsSevOnly "amd64" "/usr/share/OVMF").Bootable false true true
        = true ↔
      existsIn fsSevOnly "/usr/share/OVMF" "OVMF_CODE.cc.fd" ∧
        existsIn fsSevOnly "/usr/share/OVMF" "OVMF_VARS.fd") :=
  C14_sev_vars_is_standard_vars fsSevOnly "amd64" "/usr/share/OVMF" (by decide) true

/-! ## Dependence on the file system -/

/-- C15: resolution is deterministic in the existence of files: for every architecture and
directory, two calls of the detector against snapshots in which the stat call succeeds on
the same paths (in particular two calls against one unchanged snapshot) return
environments on which `Bootable`, `EFICode` and `EFIVars` agree for every flag triple. -/
theorem C15_deterministic (fs1 fs2 : FileSystem) (arch dir : String)
    (h : ∀ p, fs1 p = none ↔ fs2 p = none) (secureBoot sev cca : Bool) :
    (DetectEFIEnvironment fs1 arch dir).Bootable secureBoot sev cca =
      (DetectEFIEnvironment fs2 arch dir).Bootable secureBoot sev cca ∧
    (DetectEFIEnvironment fs1 arch dir).EFICode secureBoot sev cca =
      (DetectEFIEnvironment fs2 arch dir).EFICode secureBoot sev cca ∧
    (DetectEFIEnvironment fs1 arch dir).EFIVars secureBoot sev cca =
      (DetectEFIEnvironment fs2 arch dir).EFIVars secureBoot sev cca := by
  rw [DetectEFIEnvironment_congr fs1 fs2 arch dir h]
  exact ⟨rfl, rfl, rfl⟩

theorem C15_deterministic_witness :
    (DetectEFIEnvironment fsSecbootCodeOnly "amd64" "/usr/share/OVMF").Bootable
        false false false =
      (DetectEFIEnvironment fsSecbootCodeOnlyFailing "amd64" "/usr/share/OVMF").Bootable
        false false false ∧
    (DetectEFIEnvironment fsSecbootCodeOnly "amd64" "/usr/share/OVMF").EFICode
        false false false =
      (DetectEFIEnvironment fsSecbootCodeOnlyFailing "amd64" "/usr/share/OVMF").EFICode
        false false false ∧
    (DetectEFIEnvironment fsSecbootCodeOnly "amd64" "/usr/share/OVMF").EFIVars
        false false false =
      (DetectEFIEnvironment fsSecbootCodeOnlyFailing "amd64" "/usr/share/OVMF").EFIVars
        false false false :=
  C15_deterministic fsSecbootCodeOnly fsSecbootCodeOnlyFailing "amd64" "/usr/share/OVMF"
    (by
      intro p
      by_cases hp : p ∈ ["/usr/share/OVMF/OVMF_CODE.secboot.fd", "/usr/share/OVMF/OVMF_VARS.fd"]
      · simp [fsSecbootCodeOnly, fsSecbootCodeOnlyFailing, fsOf, hp]
      · simp [fsSecbootCodeOnly, fsSecbootCodeOnlyFailing, fsOf, hp])
    false false false

/-- C16: soundness of the returned paths: for every architecture, directory, snapshot and
flag triple, a non-empty string returned by `EFICode` or `EFIVars` on the detected
environment is the joined path of the directory and one of the nine firmware file names,
and the stat call on it succeeds; the standard code slot filled by the Secure-Boot
fallback is included. -/
theorem C16_returned_paths_sound (fs : FileSystem) (arch dir : String)
    (secureBoot sev cca : Bool) (p : String)
    (hp : p = (DetectEFIEnvironment fs arch dir).EFICode secureBoot sev cca ∨
      p = (DetectEFIEnvironment fs arch dir).EFIVars secureBoot sev cca)
    (hne : p ≠ "") :
    ∃ name ∈ ["OVMF_CODE.fd", "OVMF_VARS.fd", "AAVMF_CODE.fd", "AAVMF_VARS.fd",
        "OVMF_CODE.secboot.fd", "OVMF_VARS.secboot.fd", "OVMF_CODE.cc.fd",
        "AAVMF_CODE.cca.fd", "AAVMF_VARS.cca.fd"],
      p = Join [dir, name] ∧ fs p = none := by
  obtain ⟨f1, f2, f3, f4, f5, f6, f7, f8⟩ := DetectEFIEnvironment_fields_sound fs arch dir
  have hs : soundPath fs dir p := by
    rcases hp with hp | hp <;> subst hp <;>
      cases secureBoot <;> cases sev <;> cases cca <;>
      simp only [EFIEnvironment.EFICode, EFIEnvironment.EFIVars, Bool.false_eq_true,
        ↓reduceIte] <;> assumption
  rcases hs with hs | hs
  · exact absurd hs hne
  · exact hs

theorem C16_returned_paths_sound_witness :
    ∃ name ∈ ["OVMF_CODE.fd", "OVMF_VARS.fd", "AAVMF_CODE.fd", "AAVMF_VARS.fd",
        "OVMF_CODE.secboot.fd", "OVMF_VARS.secboot.fd", "OVMF_CODE.cc.fd",
        "AAVMF_CODE.cca.fd", "AAVMF_VARS.cca.fd"],
      "/usr/share/OVMF/OVMF_CODE.secboot.fd" = Join ["/usr/share/OVMF", name] ∧
        fsSecbootCodeOnly "/usr/share/OVMF/OVMF_CODE.secboot.fd" = none :=
  C16_returned_paths_sound fsSecbootCodeOnly "amd64" "/usr/share/OVMF" false false false
    "/usr/share/OVMF/OVMF_CODE.secboot.fd" (Or.inl (by decide)) (by decide)

/-- C17: the Secure-Boot fallback goes one way only: for every architecture other than
"arm64", every directory and snapshot, `Bootable(true, sev, cca)` is true if and only if
`OVMF_CODE.secboot.fd` and `OVMF_VARS.secboot.fd` both exist, and `EFICode(true, sev, cca)`
is never the joined path of `OVMF_CODE.fd` and `EFIVars(true, sev, cca)` never the joined
path of `OVMF_VARS.fd`, whatever files exist. -/
theorem C17_secureboot_never_uses_plain_pair (fs : FileSystem) (arch dir : String)
    (harch : arch ≠ "arm64") (sev cca : Bool) :
    ((DetectEFIEnvironment fs arch dir).Bootable true sev cca = true ↔
      existsIn fs dir "OVMF_CODE.secboot.fd" ∧ existsIn fs dir "OVMF_VARS.secboot.fd") ∧
    (DetectEFIEnvironment fs arch dir).EFICode true sev cca ≠ Join [dir, "OVMF_CODE.fd"] ∧
    (DetectEFIEnvironment fs arch dir).EFIVars true sev cca ≠ Join [dir, "OVMF_VARS.fd"] := by
  have jc := Join_pair_ne_empty dir "OVMF_CODE.fd" (by decide)
  have jv := Join_pair_ne_empty dir "OVMF_VARS.fd" (by decide)
  have jsc := Join_pair_ne_empty dir "OVMF_CODE.secboot.fd" (by decide)
  have jsv := Join_pair_ne_empty dir "OVMF_VARS.secboot.fd" (by decide)
  have nc := Join_plain_name_ne dir "OVMF_CODE.secboot.fd" "OVMF_CODE.fd"
    (by decide) (by decide) (by decide)
  have nv := Join_plain_name_ne dir "OVMF_VARS.secboot.fd" "OVMF_VARS.fd"
    (by decide) (by decide) (by decide)
  rw [DetectEFIEnvironment_generic fs arch dir harch]
  simp only [EFIEnvironment.Bootable, EFIEnvironment.EFICode, EFIEnvironment.EFIVars,
    getEFIBinaryIfExists_eq]
  by_cases h1 : existsIn fs dir "OVMF_CODE.secboot.fd" <;>
    by_cases h2 : existsIn fs dir "OVMF_VARS.secboot.fd" <;>
    simp [h1, h2, jsc, jsv, nc, nv, Ne.symm jc, Ne.symm jv]

theorem C17_secureboot_never_uses_plain_pair_witness :
    ((DetectEFIEnvironment fsPlainOnly "amd64" "/usr/share/OVMF").Bootable true false false
        = true ↔
      existsIn fsPlainOnly "/usr/share/OVMF" "OVMF_CODE.secboot.fd" ∧
        existsIn fsPlainOnly "/usr/share/OVMF" "OVMF_VARS.secboot.fd") ∧
    (DetectEFIEnvironment fsPlainOnly "amd64" "/usr/share/OVMF").EFICode true false false ≠
      "/usr/share/OVMF/OVMF_CODE.fd" ∧
    (DetectEFIEnvironment fsPlainOnly "amd64" "/usr/share/OVMF").EFIVars true false false ≠
      "/usr/share/OVMF/OVMF_VARS.fd" :=
  C17_secureboot_never_uses_plain_pair fsPlainOnly "amd64" "/usr/share/OVMF" (by decide)
    false false

/-- C18: bootability is monotone in the set of existing files: for every architecture,
directory and flag triple, if every path on which the stat call succeeds in the snapshot
`fs1` is one on which it succeeds in `fs2`, then `Bootable` on the environment detected
from `fs1` implies `Bootable` on the environment detected from `fs2`. -/
theorem C18_bootable_monotone (fs1 fs2 : FileSystem) (arch dir : String)
    (h : ∀ p, fs1 p = none → fs2 p = none) (secureBoot sev cca : Bool)
    (hb : (DetectEFIEnvironment fs1 arch dir).Bootable secureBoot sev cca = true) :
    (DetectEFIEnvironment fs2 arch dir).Bootable secureBoot sev cca = true := by
  have hm : ∀ name, existsIn fs1 dir name → existsIn fs2 dir name := fun name => h _
  have j1 := Join_pair_ne_empty dir "OVMF_CODE.fd" (by decide)
  have j2 := Join_pair_ne_empty dir "OVMF_VARS.fd" (by decide)
  have j3 := Join_pair_ne_empty dir "AAVMF_CODE.fd" (by decide)
  have j4 := Join_pair_ne_empty dir "AAVMF_VARS.fd" (by decide)
  have j5 := Join_pair_ne_empty dir "OVMF_CODE.secboot.fd" (by decide)
  have j6 := Join_pair_ne_empty dir "OVMF_VARS.secboot.fd" (by decide)
  have j7 := Join_pair_ne_empty dir "OVMF_CODE.cc.fd" (by decide)
  have j8 := Join_pair_ne_empty dir "AAVMF_CODE.cca.fd" (by decide)
  have j9 := Join_pair_ne_empty dir "AAVMF_VARS.cca.fd" (by decide)
  by_cases harch : arch = "arm64"
  · subst harch
    rw [DetectEFIEnvironment_arm64] at hb ⊢
    simp only [EFIEnvironment.Bootable, getEFIBinaryIfExists_eq] at hb ⊢
    have m3 := hm "AAVMF_CODE.fd"
    have m4 := hm "AAVMF_VARS.fd"
    have m8 := hm "AAVMF_CODE.cca.fd"
    have m9 := hm "AAVMF_VARS.cca.fd"
    cases secureBoot <;> cases sev <;> cases cca <;> simp at hb ⊢ <;> simp_all
  · rw [DetectEFIEnvironment_generic fs1 arch dir harch] at hb
    rw [DetectEFIEnvironment_generic fs2 arch dir harch]
    simp only [EFIEnvironment.Bootable, getEFIBinaryIfExists_eq] at hb ⊢
    have m1 := hm "OVMF_CODE.fd"
    have m2 := hm "OVMF_VARS.fd"
    have m5 := hm "OVMF_CODE.secboot.fd"
    have m6 := hm "OVMF_VARS.secboot.fd"
    have m7 := hm "OVMF_CODE.cc.fd"
    cases secureBoot <;> cases sev <;> cases cca <;> simp at hb ⊢ <;>
      (try split_ifs at hb ⊢) <;> simp_all

theorem C18_bootable_monotone_witness :
    (DetectEFIEnvironment fsFull "amd64" "/usr/share/OVMF").Bootable false false false = true ∧
    (DetectEFIEnvironment fsSecbootCodeOnly "amd64" "/usr/share/OVMF").EFICode
        false false false = "/usr/share/OVMF/OVMF_CODE.secboot.fd" ∧
    (DetectEFIEnvironment fsFull "amd64" "/usr/share/OVMF").EFICode false false false =
      "/usr/share/OVMF/OVMF_CODE.fd" :=
  ⟨C18_bootable_monotone fsSecbootCodeOnly fsFull "amd64" "/usr/share/OVMF"
      (by
        intro p
        simp only [fsSecbootCodeOnly, fsFull, fsOf]
        intro hp
        split at hp
        · rename_i hmem
          have : p ∈ ["/usr/share/OVMF/OVMF_CODE.fd", "/usr/share/OVMF/OVMF_VARS.fd",
              "/usr/share/OVMF/OVMF_CODE.secboot.fd", "/usr/share/OVMF/OVMF_VARS.secboot.fd",
              "/usr/share/OVMF/OVMF_CODE.cc.fd"] := by
            simp only [List.mem_cons, List.mem_singleton, List.not_mem_nil, or_false] at hmem ⊢
            rcases hmem with hmem | hmem <;> simp [hmem]
          simp [this]
        · simp at hp)
      false false false (by decide),
    by decide, by decide⟩

/-- C19: the detected environment depends only on the files of its own branch: for
"arm64", two snapshots that agree on the existence of `AAVMF_CODE.fd`, `AAVMF_VARS.fd`,
`AAVMF_CODE.cca.fd` and `AAVMF_VARS.cca.fd` in the directory give equal environments; for
every other architecture, two snapshots that agree on `OVMF_CODE.fd`, `OVMF_VARS.fd`,
`OVMF_CODE.secboot.fd`, `OVMF_VARS.secboot.fd` and `OVMF_CODE.cc.fd` give equal
environments. -/
theorem C19_own_branch_files_only (fs1 fs2 : FileSystem) (dir : String) :
    ((∀ name ∈ ["AAVMF_CODE.fd", "AAVMF_VARS.fd", "AAVMF_CODE.cca.fd", "AAVMF_VARS.cca.fd"],
        (existsIn fs1 dir name ↔ existsIn fs2 dir name)) →
      DetectEFIEnvironment fs1 "arm64" dir = DetectEFIEnvironment fs2 "arm64" dir) ∧
    (∀ arch : String, arch ≠ "arm64" →
      (∀ name ∈ ["OVMF_CODE.fd", "OVMF_VARS.fd", "OVMF_CODE.secboot.fd",
          "OVMF_VARS.secboot.fd", "OVMF_CODE.cc.fd"],
        (existsIn fs1 dir name ↔ existsIn fs2 dir name)) →
      DetectEFIEnvironment fs1 arch dir = DetectEFIEnvironment fs2 arch dir) := by
  constructor
  · intro h
    rw [DetectEFIEnvironment_arm64, DetectEFIEnvironment_arm64]
    rw [getEFIBinaryIfExists_congr fs1 fs2 dir "AAVMF_CODE.fd" (h _ (by simp)),
      getEFIBinaryIfExists_congr fs1 fs2 dir "AAVMF_VARS.fd" (h _ (by simp)),
      getEFIBinaryIfExists_congr fs1 fs2 dir "AAVMF_CODE.cca.fd" (h _ (by simp)),
      getEFIBinaryIfExists_congr fs1 fs2 dir "AAVMF_VARS.cca.fd" (h _ (by simp))]
  · intro arch harch h
    rw [DetectEFIEnvironment_generic fs1 arch dir harch,
      DetectEFIEnvironment_generic fs2 arch dir harch]
    rw [getEFIBinaryIfExists_congr fs1 fs2 dir "OVMF_CODE.fd" (h _ (by simp)),
      getEFIBinaryIfExists_congr fs1 fs2 dir "OVMF_VARS.fd" (h _ (by simp)),
      getEFIBinaryIfExists_congr fs1 fs2 dir "OVMF_CODE.secboot.fd" (h _ (by simp)),
      getEFIBinaryIfExists_congr fs1 fs2 dir "OVMF_VARS.secboot.fd" (h _ (by simp)),
      getEFIBinaryIfExists_congr fs1 fs2 dir "OVMF_CODE.cc.fd" (h _ (by simp))]

theorem C19_own_branch_files_only_witness :
    DetectEFIEnvironment fsArm "arm64" "/usr/share/AAVMF" =
      DetectEFIEnvironment fsArmAndOvmf "arm64" "/usr/share/AAVMF" ∧
    DetectEFIEnvironment fsFull "amd64" "/usr/share/OVMF" =
      DetectEFIEnvironment fsFullAndAavmf "amd64" "/usr/share/OVMF" :=
  ⟨(C19_own_branch_files_only fsArm fsArmAndOvmf "/usr/share/AAVMF").1 (by decide),
   (C19_own_branch_files_only fsFull fsFullAndAavmf "/usr/share/OVMF").2 "amd64"
      (by decide) (by decide)⟩

end Efi
